import Mathlib

/-!
Verification development for the Skematic schema engine (mekanika/schema).

The validate engine (`validate`, `_checkKeys`, `_validate`, `_sparse`) is
embedded from the source in `src/test/validate.test.js` (the file carries the
engine's source after its test section).  The transform pipeline is embedded
from `src/unnamed/part_000` and the destructive `strip` helper from
`src/src/strip.js`.  The leaf modules `checkValue`, `rules`, `default`, `is`
and the format engine are not present under `src/`; those definitions are
modelled from the spec and marked as such in their doc comments.

JavaScript values are represented by the inductive `Value`; JS objects become
ordered association lists (JS objects preserve insertion order and have unique
keys).  Mutation is represented by explicit state passing.  Thrown exceptions
(`v.forEach is not a function`, throwing transform functions) are represented
with `Except String`.
-/

namespace SchemaJs

/-- A JavaScript value: `undefined`, `null`, booleans, numbers (the claims only
need integral numbers), strings, arrays and plain keyed objects. -/
inductive Value : Type where
  | undef : Value
  | null : Value
  | bool : Bool → Value
  | num : Int → Value
  | str : String → Value
  | arr : List Value → Value
  | obj : List (String × Value) → Value

/-- JS strict equality `===` restricted to the model: primitives compare by
value; arrays and objects compare by reference in JS, and two separately
denoted structures are never reference-equal, so the model returns `false`
for them (sentinel matching in `strip` uses `===` against literals). -/
def jsStrictEq : Value → Value → Bool
  | .undef, .undef => true
  | .null, .null => true
  | .bool a, .bool b => a == b
  | .num a, .num b => a == b
  | .str a, .str b => a == b
  | _, _ => false

/-- JS falsiness: `undefined`, `null`, `false`, `0` and `''` are falsy; arrays
and objects (even empty ones) are truthy. -/
def isFalsy : Value → Bool
  | .undef => true
  | .null => true
  | .bool b => !b
  | .num n => n == 0
  | .str s => s == ""
  | _ => false

/-- JS truthiness. -/
def jsTruthy (v : Value) : Bool := !isFalsy v

/-- Modelled from the spec: `isEmpty` (the `is`/`rules` leaf modules are not
under `src/`).  §4.1: `undefined`, `null`, empty string and empty
array/object are "empty". -/
def isEmptyVal : Value → Bool
  | .undef => true
  | .null => true
  | .str s => s == ""
  | .arr l => l.isEmpty
  | .obj l => l.isEmpty
  | _ => false

/-- The `is.object` predicate: a plain keyed object (not an array, not `null`). -/
def isJsObject : Value → Bool
  | .obj _ => true
  | _ => false

/-- The `value instanceof Array` test. -/
def isJsArray : Value → Bool
  | .arr _ => true
  | _ => false

/-- Key lookup on an association list (JS `obj[key]`, `none` for absent). -/
def lookupKey {α : Type} : List (String × α) → String → Option α
  | [], _ => none
  | (k2, v) :: rest, k => if k2 == k then some v else lookupKey rest k

/-- The keys of an association list, in order. -/
def keysOf {α : Type} (l : List (String × α)) : List String := l.map Prod.fst

/-- An error tree: a leaf is an ordered sequence of message strings, a node is
a keyed mapping (field name or string array-index) to sub-trees. -/
inductive ErrTree : Type where
  | msgs : List String → ErrTree
  | node : List (String × ErrTree) → ErrTree

/-- The `{valid, errors}` result returned by `validate`; `errors = none` models JS
`null`. -/
structure ValidationResult : Type where
  valid : Bool
  errors : Option ErrTree

/-- JS coercion of a possibly-`null` error slot to a tree (the engine only
reads `.errors` of invalid results, which are never `null`). -/
def errTreeD : Option ErrTree → ErrTree
  | some t => t
  | none => .node []

/-- Lookup of a key inside a result's error map (convenience for theorem
statements; `none` both for an absent key and for non-map errors). -/
def errorsLookup (r : ValidationResult) (k : String) : Option ErrTree :=
  match r.errors with
  | some (.node l) => lookupKey l k
  | _ => none

/-- An error slot that is present and carries at least one error. -/
def nonemptyErrors : Option ErrTree → Prop
  | some (.node l) => l ≠ []
  | some (.msgs l) => l ≠ []
  | none => False

/-- The `errors` attribute of a field spec: a single message string, or a
mapping from rule name (plus `default`) to message. -/
inductive ErrMsgs : Type where
  | str : String → ErrMsgs
  | map : List (String × String) → ErrMsgs

mutual
/-- A field specification (all attributes optional in the source; absent
booleans are falsy).  `model` is the sub-schema attribute used by the engine
source (`scm.model`); `transforms` and `protect` are read by the format
engine only. -/
inductive FieldSpec : Type where
  | mk :
      (type : Option String) →
      (required : Bool) →
      (allowNull : Option Bool) →
      (rules : List (String × Value)) →
      (errors : Option ErrMsgs) →
      (defaultVal : Option Value) →
      (model : Option SubModel) →
      (transforms : List String) →
      (protect : Bool) →
      FieldSpec

/-- The `model` attribute of a field: either a keyed sub-model (field name →
spec) or a scalar field spec (`{gir: {model: {type: 'string'}}}`). -/
inductive SubModel : Type where
  | keyed : List (String × FieldSpec) → SubModel
  | scalar : FieldSpec → SubModel
end

namespace FieldSpec

def type : FieldSpec → Option String
  | .mk t _ _ _ _ _ _ _ _ => t

def required : FieldSpec → Bool
  | .mk _ r _ _ _ _ _ _ _ => r

def allowNull : FieldSpec → Option Bool
  | .mk _ _ a _ _ _ _ _ _ => a

def rules : FieldSpec → List (String × Value)
  | .mk _ _ _ r _ _ _ _ _ => r

def errors : FieldSpec → Option ErrMsgs
  | .mk _ _ _ _ e _ _ _ _ => e

def defaultVal : FieldSpec → Option Value
  | .mk _ _ _ _ _ d _ _ _ => d

def model : FieldSpec → Option SubModel
  | .mk _ _ _ _ _ _ m _ _ => m

def transforms : FieldSpec → List String
  | .mk _ _ _ _ _ _ _ ts _ => ts

def protect : FieldSpec → Bool
  | .mk _ _ _ _ _ _ _ _ p => p

end FieldSpec

/-- A field spec with every attribute absent. -/
def emptyFieldSpec : FieldSpec := .mk none false none [] none none none [] false

/-- Options accepted by `validate` (absent options are falsy). -/
structure VOpts : Type where
  sparse : Bool := false
  strict : Bool := false
  keyCheckOnly : Bool := false

/-- Modelled from the spec: the rule registry (`src/rules.js` is not under
`src/`).  §4.3: named predicates `(value, ...args, context) -> boolean`;
built-ins include numeric bounds, string length bounds, equality, membership
and emptiness.  Pattern and format predicates (`match`, `isEmail`, `isUrl`)
are opaque in the spec and are not modelled. -/
def rulePredicate : String → Option (Value → List Value → Value → Bool)
  | "min" => some fun v args _ =>
      match v, args.head? with
      | .num n, some (.num m) => m ≤ n
      | _, _ => false
  | "max" => some fun v args _ =>
      match v, args.head? with
      | .num n, some (.num m) => n ≤ m
      | _, _ => false
  | "minLength" => some fun v args _ =>
      match v, args.head? with
      | .str s, some (.num m) => m ≤ (s.length : Int)
      | _, _ => false
  | "maxLength" => some fun v args _ =>
      match v, args.head? with
      | .str s, some (.num m) => (s.length : Int) ≤ m
      | _, _ => false
  | "eq" => some fun v args _ =>
      match args.head? with
      | some a => jsStrictEq v a
      | none => false
  | "neq" => some fun v args _ =>
      match args.head? with
      | some a => !jsStrictEq v a
      | none => false
  | "in" => some fun v args _ => args.any (jsStrictEq v)
  | "oneOf" => some fun v args _ => args.any (jsStrictEq v)
  | "notOneOf" => some fun v args _ => !args.any (jsStrictEq v)
  | "empty" => some fun v _ _ => isEmptyVal v
  | _ => none

/-- Modelled from the spec: rule argument normalization (§4.3) — a bare scalar
configuration is wrapped as a single-element argument list. -/
def normalizeArgs : Value → List Value
  | .arr l => l
  | v => [v]

/-- Modelled from the spec: error-message resolution precedence (§4.3) for a
failing rule `r` — keyed message, then `default` key, then a single-string
config, then the system default `Failed: r` (`Unknown: r` for an unregistered
rule). -/
def resolveMsg (s : FieldSpec) (r : String) (unknown : Bool) : String :=
  let sysDefault := if unknown then "Unknown: " ++ r else "Failed: " ++ r
  match s.errors with
  | some (.map m) =>
      match lookupKey m r with
      | some msg => msg
      | none =>
          match lookupKey m "default" with
          | some msg => msg
          | none => sysDefault
  | some (.str msg) => msg
  | none => sysDefault

/-- Modelled from the spec: the declared-type check (§4.5) — a declared `type`
is validated directly against the raw value, never coerced.  Numbers in the
model are integral, so `integer` and `number` coincide. -/
def typeMatches (t : String) (v : Value) : Bool :=
  match t with
  | "string" => match v with | .str _ => true | _ => false
  | "integer" => match v with | .num _ => true | _ => false
  | "number" => match v with | .num _ => true | _ => false
  | "boolean" => match v with | .bool _ => true | _ => false
  | "array" => match v with | .arr _ => true | _ => false
  | "object" => match v with | .obj _ => true | _ => false
  | _ => false

/-- Modelled from the spec: `setDefault` (`src/default.js` is not under
`src/`).  §3: the `default` value is applied when the resolved value is
absent/empty. -/
def setDefault (v : Value) (s : FieldSpec) : Value :=
  if isEmptyVal v then
    match s.defaultVal with
    | some d => d
    | none => v
  else v

/-- Modelled from the spec: failure messages for every declared rule of a
field, in declaration order (§4.3; unknown rule names produce an `Unknown`
message, per §9's documented asymmetry with transforms). -/
def ruleErrors (s : FieldSpec) (val : Value) (ctx : Value) : List String :=
  s.rules.foldr
    (fun rc acc =>
      match rulePredicate rc.1 with
      | some p =>
          if p val (normalizeArgs rc.2) ctx then acc
          else resolveMsg s rc.1 false :: acc
      | none => resolveMsg s rc.1 true :: acc)
    []

/-- Modelled from the spec: `checkValue` (`src/validate/checkValue.js` is not
under `src/`): the scalar leaf check.  §3/§4.5 and the checkValue tests:
`allowNull: true` lets `null` bypass every check; an empty value errors only
when the field is required (or `allowNull: false`); a non-empty value gets the
declared-type check followed by every declared rule.  The trailing options
argument of the source signature is accepted and unused. -/
def checkValue (val : Value) (spec : Option FieldSpec) (ctx : Value)
    (_opts : VOpts) : List String :=
  match spec with
  | none => []
  | some s =>
      if s.allowNull == some true && jsStrictEq val .null then []
      else if isEmptyVal val then
        if s.required ∨ s.allowNull = some false then ["Required"] else []
      else
        (match s.type with
          | some t => if typeMatches t val then [] else ["Not of type " ++ t]
          | none => []) ++ ruleErrors s val ctx

/-- The per-field skip test of `_validate` (validate source lines 400-406):
a field that carries no rules, is not required (`allowNull: false` counts as
required), and whose value-after-default is empty, is skipped. -/
def fieldSkipped (scm : FieldSpec) (v : Value) : Bool :=
  let isRequired := scm.required || scm.allowNull == some false
  let hasRules := !scm.rules.isEmpty
  let hasEmptyDefault := isEmptyVal (setDefault v scm)
  !hasRules && !isRequired && hasEmptyDefault

/-- The keyed fields of a sub-model.  A scalar field spec iterated as a keyed
model contributes no validatable fields: in JS, iterating its attribute keys
either meets falsy attribute values (skipped by `if (!scm) continue`) or
attribute-free specs on absent data keys (skipped by the empty-optional
rule). -/
def subFields : SubModel → List (String × FieldSpec)
  | .keyed fields => fields
  | .scalar _ => []

/-- JS truthiness of `model[key]` for `_checkKeys`/`_sparse`: on a keyed model
a present field spec is an object, hence truthy; on a scalar spec the lookup
reads the attribute of that name and tests its JS truthiness. -/
def subHasTruthyKey (model : SubModel) (k : String) : Bool :=
  match model with
  | .keyed fields => (lookupKey fields k).isSome
  | .scalar s =>
      match k with
      | "type" => match s.type with | some t => t != "" | none => false
      | "required" => s.required
      | "allowNull" => s.allowNull == some true
      | "rules" => !s.rules.isEmpty
      | "errors" =>
          match s.errors with
          | some (.str m) => m != ""
          | some (.map _) => true
          | none => false
      | "default" => match s.defaultVal with | some d => jsTruthy d | none => false
      | "model" => s.model.isSome
      | "transforms" => !s.transforms.isEmpty
      | "protect" => s.protect
      | _ => false

/-- Reading `model[key]` as a field spec, for `_sparse`: attribute values of a scalar
spec are not field specs (validating against them is a no-op), so only keyed
models yield a spec. -/
def subGet (model : SubModel) (k : String) : Option FieldSpec :=
  match model with
  | .keyed fields => lookupKey fields k
  | .scalar _ => none

/-- A sub-model read as a single field spec (the `checkValue(val, scm.model)`
calls): attribute reads on a keyed model yield `undefined` for models whose
field names do not collide with spec attribute names. -/
def asSpec : SubModel → FieldSpec
  | .scalar s => s
  | .keyed _ => emptyFieldSpec

/-- Key sanitization of `_checkKeys` (validate source lines 347-358): a data
key longer than `MAX_USER_KEY_LEN = 48` characters is replaced by its first
`48 - 3 = 45` characters followed by `...`. -/
def sanitizeKey (k : String) : String :=
  if k.length > 48 then String.mk (k.data.take 45 ++ "...".data) else k

/-- The per-key loop of `_checkKeys`: an `invalidKey` error under the
sanitized name of every data key without a truthy model entry, in data-key
order. -/
def checkKeysErrs (model : SubModel) : List (String × Value) → List (String × ErrTree)
  | [] => []
  | (k, _) :: rest =>
      if subHasTruthyKey model k then checkKeysErrs model rest
      else (sanitizeKey k, .msgs ["invalidKey"]) :: checkKeysErrs model rest

/-- The `_checkKeys` function (validate source lines 337-362): non-objects fail with
`{data: ['invalidObject']}`; otherwise every data key must be on the model.
On success the source returns its initial `{valid: true, errors: {}}` — an
empty map, not `null`. -/
def checkKeys (model : SubModel) (data : Value) : ValidationResult :=
  match data with
  | .obj fields =>
      let errs := checkKeysErrs model fields
      if errs.isEmpty then ⟨true, some (.node [])⟩
      else ⟨false, some (.node errs)⟩
  | _ => ⟨false, some (.node [("data", .msgs ["invalidObject"])])⟩

mutual

/-- The `_validate` function (validate source lines 376-456): scalar subjects go through
`checkValue` and return an error array; keyed objects run the per-field loop.
The source's final `errors: null` normalization for an empty error map is the
`errs.isEmpty` branch. -/
def jsValidate (data : Value) (model : SubModel) (opts : VOpts)
    (parentData : Value) : Except String ValidationResult :=
  match data with
  | .obj dfields =>
      (match loopFields (subFields model) dfields opts [] with
        | .error e => .error e
        | .ok (.inl earlyResult) => .ok earlyResult
        | .ok (.inr errs) =>
            if errs.isEmpty then .ok ⟨true, none⟩
            else .ok ⟨false, some (.node errs)⟩)
  | _ =>
      let res := checkValue data (some (asSpec model)) parentData opts
      if res.isEmpty then .ok ⟨true, none⟩ else .ok ⟨false, some (.msgs res)⟩
termination_by (sizeOf model, 0)
decreasing_by
  simp_wf
  refine Prod.Lex.left _ _ ?_
  cases model with
  | keyed fields => simp [subFields]
  | scalar s => cases s; simp [subFields]

/-- The `for (let key in model)` loop of `_validate` (source lines 391-447),
threading the `errs` accumulator.  The source line 435
`if (!checkedKeys.valid) return (errs[key] = checkedKeys)` early-returns the
sub-model key-check result itself (the assignment to `errs[key]` is dead);
that early return is modelled by `Sum.inl`.  A truthy non-array value reaching
`v.forEach` throws in JS and is modelled by `Except.error`. -/
def loopFields (fields : List (String × FieldSpec))
    (dfields : List (String × Value)) (opts : VOpts)
    (errs : List (String × ErrTree)) :
    Except String (ValidationResult ⊕ List (String × ErrTree)) :=
  match fields with
  | [] => .ok (.inr errs)
  | (key, scm) :: rest =>
      let v := (lookupKey dfields key).getD .undef
      if fieldSkipped scm v then loopFields rest dfields opts errs
      else
        match _h : scm.model with
        | some sub =>
            if scm.type == some "array" || isJsArray v then
              if isFalsy v then loopFields rest dfields opts errs
              else
                match v with
                | .arr elems =>
                    (match elemLoop elems sub opts dfields 0 [] with
                      | .error e => .error e
                      | .ok subErrs =>
                          loopFields rest dfields opts
                            (if subErrs.isEmpty then errs
                             else errs ++ [(key, .node subErrs)]))
                | _ => .error "TypeError: v.forEach is not a function"
            else
              let checkedKeys := checkKeys sub v
              if !checkedKeys.valid then .ok (.inl checkedKeys)
              else
                (match jsValidate v sub opts (.obj []) with
                  | .error e => .error e
                  | .ok subRes =>
                      loopFields rest dfields opts
                        (if !subRes.valid then
                          errs ++ [(key, errTreeD subRes.errors)]
                         else errs))
        | none =>
            let errors := checkValue v (some scm) (.obj dfields) opts
            loopFields rest dfields opts
              (if errors.isEmpty then errs else errs ++ [(key, .msgs errors)])
termination_by (sizeOf fields, 0)
decreasing_by
  all_goals simp_wf
  all_goals
    first
      | exact Prod.Lex.left _ _ (by simp; all_goals omega)
      | exact Prod.Lex.left _ _ (by
          have hlt : sizeOf sub < sizeOf scm := by
            cases scm with
            | mk t r a ru e d m ts p =>
              simp [FieldSpec.model] at _h
              subst _h
              simp
              all_goals omega
          simp
          all_goals omega)

/-- The `v.forEach((val, idx) => ...)` body of `_validate` (source lines
415-431): object elements recurse fully, other elements run `checkValue`
against the sub-model as a field spec; failures are recorded under the string
index. -/
def elemLoop (elems : List Value) (sub : SubModel) (opts : VOpts)
    (dfields : List (String × Value)) (idx : Nat)
    (acc : List (String × ErrTree)) : Except String (List (String × ErrTree)) :=
  match elems with
  | [] => .ok acc
  | val :: rest =>
      if isJsObject val then
        (match jsValidate val sub opts (.obj []) with
          | .error e => .error e
          | .ok arsub =>
              elemLoop rest sub opts dfields (idx + 1)
                (if !arsub.valid then acc ++ [(toString idx, errTreeD arsub.errors)]
                 else acc))
      else
        let er := checkValue val (some (asSpec sub)) (.obj dfields) opts
        elemLoop rest sub opts dfields (idx + 1)
          (if er.isEmpty then acc else acc ++ [(toString idx, .msgs er)])
termination_by (sizeOf sub, elems.length + 1)
decreasing_by
  all_goals simp_wf
  all_goals exact Prod.Lex.right _ (by simp; all_goals omega)

end

/-- The outcome of the `v.forEach` body of `_validate` for one array element
(for stating properties of `elemLoop`): the error tree recorded for the
element, or `none` when it passes. -/
def elemErrOf (val : Value) (sub : SubModel) (opts : VOpts)
    (dfields : List (String × Value)) : Except String (Option ErrTree) :=
  if isJsObject val then
    match jsValidate val sub opts (.obj []) with
    | .error e => .error e
    | .ok arsub => .ok (if !arsub.valid then some (errTreeD arsub.errors) else none)
  else
    let er := checkValue val (some (asSpec sub)) (.obj dfields) opts
    .ok (if er.isEmpty then none else some (.msgs er))

/-- The `for (let key in data)` loop of `_sparse` (validate source lines
473-482): data keys without an associated model entry are skipped; the others
are validated as scalars against their field spec, with the full data object
as cross-field parent context.  Failures are recorded under the data key. -/
def sparseLoop (fields : List (String × Value)) (model : SubModel)
    (opts : VOpts) (parent : List (String × Value)) :
    Except String (List (String × ErrTree)) :=
  match fields with
  | [] => .ok []
  | (k, v) :: rest =>
      match subGet model k with
      | none => sparseLoop rest model opts parent
      | some scm =>
          match jsValidate v (.scalar scm) opts (.obj parent) with
          | .error e => .error e
          | .ok out =>
              match sparseLoop rest model opts parent with
              | .error e => .error e
              | .ok more =>
                  .ok (if !out.valid then (k, errTreeD out.errors) :: more else more)

/-- The `_sparse` function (validate source lines 468-488): validates only the data keys;
`valid` is true iff no per-key validation failed; `errors` is always the
(possibly empty) accumulated map, never `null`.  A non-object subject has no
own enumerable keys, so the loop body never runs. -/
def sparseValidate (data : Value) (model : SubModel) (opts : VOpts) :
    Except String ValidationResult :=
  match data with
  | .obj fields =>
      match sparseLoop fields model opts fields with
      | .error e => .error e
      | .ok errs => .ok ⟨errs.isEmpty, some (.node errs)⟩
  | _ => .ok ⟨true, some (.node [])⟩

/-- The public `validate` entry point (validate source lines 314-325): `keyCheckOnly` returns the
bare key check; `strict` returns the key check when it fails and otherwise
runs normal validation; `sparse` selects `_sparse` over `_validate`. -/
def validate (model : SubModel) (data : Value) (opts : VOpts) :
    Except String ValidationResult :=
  if opts.keyCheckOnly then .ok (checkKeys model data)
  else if opts.strict && !(checkKeys model data).valid then
    .ok (checkKeys model data)
  else if opts.sparse then sparseValidate data model opts
  else jsValidate data model opts (.obj [])

/-- A transform function: JS transforms may throw (e.g. `v.trim()` on a
non-string), modelled with `Except`. -/
abbrev TransformFn : Type := Value → Except String Value

/-- A transform registry state: the module-level `_transforms` map, extensible
through `transform.add` and therefore passed explicitly. -/
abbrev TransformReg : Type := List (String × TransformFn)

/-- Modelled from the spec: the `to<Type>` casters merged into `_transforms`
(`src/typeconvert.js` is not under `src/`).  §4.1: best-effort conversion,
returning the value or a best-effort cast, never throwing for these three. -/
def casterTransforms : TransformReg :=
  [ ("toString", fun v => .ok (match v with
      | .str s => .str s
      | .num n => .str (toString n)
      | .bool b => .str (if b then "true" else "false")
      | v => v)),
    ("toNumber", fun v => .ok (match v with
      | .num n => .num n
      | .bool b => .num (if b then 1 else 0)
      | v => v)),
    ("toBoolean", fun v => .ok (.bool (jsTruthy v))) ]

/-- The `_transforms` registry of `src/unnamed/part_000` lines 22-67: the four
string modifiers, plus every `to`-prefixed caster. -/
def builtinTransforms : TransformReg :=
  ([ ("trim", fun v => match v with
      | .str s => .ok (.str s.trim)
      | _ => .error "TypeError: v.trim is not a function"),
    ("nowhite", fun v => match v with
      | .str s => .ok (.str (s.replace " " ""))
      | _ => .error "TypeError: v.replace is not a function"),
    ("uppercase", fun v => match v with
      | .str s => .ok (.str s.toUpper)
      | _ => .error "TypeError: v.toUpperCase is not a function"),
    ("lowercase", fun v => match v with
      | .str s => .ok (.str s.toLower)
      | _ => .error "TypeError: v.toLowerCase is not a function") ] : TransformReg)
  ++ casterTransforms

/-- The `transforms.forEach` pipeline of `transform` (part_000 lines 92-100):
each named step applies the registered function to the running value; a name
absent from the registry is silently skipped (`if (_transforms[key])`); a
throwing transform propagates. -/
def applyTransformList (reg : TransformReg) (val : Value) :
    List String → Except String Value
  | [] => .ok val
  | key :: rest =>
      match lookupKey reg key with
      | some f =>
          match f val with
          | .error e => .error e
          | .ok v2 => applyTransformList reg v2 rest
      | none => applyTransformList reg val rest

/-- The `transform` applier (part_000 lines 82-103): no-op on `undefined` values, then the
named pipeline in declared order.  A missing/string `transforms` argument is
normalized in the source (`[]`/singleton); the embedding takes the normalized
list. -/
def transform (reg : TransformReg) (val : Value) (transforms : List String) :
    Except String Value :=
  if jsStrictEq val .undef then .ok val
  else applyTransformList reg val transforms

/-- The sentinel list of `strip` (strip.js line 17): a non-array `values`
argument is wrapped as a singleton. -/
def sentinelValues : Value → List Value
  | .arr l => l
  | v => [v]

/-- The key-deletion loop of `strip` (strip.js lines 14-20): delete every
property whose value is `===` to one of the sentinels. -/
def stripFields (sentinels : List Value) :
    List (String × Value) → List (String × Value)
  | [] => []
  | (k, v) :: rest =>
      if sentinels.any (fun s => jsStrictEq v s) then stripFields sentinels rest
      else (k, v) :: stripFields sentinels rest

/-- The `strip` helper (strip.js): destructive on its `data` argument in JS; the model
returns the post-mutation state of `data`. -/
def strip (values : Value) (data : Value) : Value :=
  match data with
  | .obj fields => .obj (stripFields (sentinelValues values) fields)
  | other => other

/-- Options accepted by `format` (§4.6); `strip` is the sentinel (or sentinel
list) configuration, absent by default. -/
structure FOpts : Type where
  sparse : Bool := false
  defaults : Bool := true
  transform : Bool := true
  protect : Bool := false
  strip : Option Value := none

/-- The per-field pass of `format` (modelled; see `format`). -/
def formatFields (reg : TransformReg) (fields : List (String × FieldSpec))
    (dfields : List (String × Value)) (opts : FOpts) :
    Except String (List (String × Value)) :=
  match fields with
  | [] => .ok []
  | (k, scm) :: rest =>
      if opts.sparse && (lookupKey dfields k).isNone then
        formatFields reg rest dfields opts
      else
        let v0 := (lookupKey dfields k).getD .undef
        let v1 := if opts.defaults then setDefault v0 scm else v0
        match (if opts.transform then transform reg v1 scm.transforms else .ok v1) with
        | .error e => .error e
        | .ok v2 =>
            match formatFields reg rest dfields opts with
            | .error e => .error e
            | .ok out =>
                .ok (if scm.protect && !opts.protect then out else (k, v2) :: out)

/-- Modelled from the spec: `format` (`src/format.js` is not under `src/`).
§4.6/§9: format builds a new record from the schema fields — sparse filter,
defaults, transform pipeline, protected-field removal, then the `strip`
sentinel deletion applied to the freshly built record.  Generators,
`mapIdFrom` and sub-schema recursion are not modelled (no claim depends on
them).  The result pairs the new record with the caller's data value after
the call, making the (absence of) mutation of the input explicit. -/
def format (reg : TransformReg) (fields : List (String × FieldSpec))
    (data : Value) (opts : FOpts) : Except String (Value × Value) :=
  let dfields := match data with | .obj fs => fs | _ => []
  match formatFields reg fields dfields opts with
  | .error e => .error e
  | .ok out =>
      let record :=
        match opts.strip with
        | some sentinels => strip sentinels (.obj out)
        | none => .obj out
      .ok (record, data)

/-! Helper lemmas shared by the claim theorems. -/

theorem lookupKey_eq_none_iff {α : Type} (l : List (String × α)) (k : String) :
    lookupKey l k = none ↔ ∀ p ∈ l, p.1 ≠ k := by
  induction l with
  | nil => simp [lookupKey]
  | cons p rest ih =>
    obtain ⟨k2, v⟩ := p
    by_cases h : k2 = k
    · subst h
      simp [lookupKey]
    · simp [lookupKey, h, ih]

theorem lookupKey_cons_self {α : Type} (l : List (String × α)) (k : String)
    (v : α) : lookupKey ((k, v) :: l) k = some v := by
  simp [lookupKey]

theorem checkKeysErrs_lookup (m : SubModel) (l : List (String × Value))
    (k : String) (v : Value) (hmem : (k, v) ∈ l)
    (hmiss : subHasTruthyKey m k = false) :
    lookupKey (checkKeysErrs m l) (sanitizeKey k) = some (.msgs ["invalidKey"]) := by
  induction l with
  | nil => simp at hmem
  | cons p rest ih =>
    obtain ⟨k2, v2⟩ := p
    rcases List.mem_cons.mp hmem with heq | hmem2
    · obtain ⟨hk, _⟩ := Prod.mk.injEq .. ▸ heq
      subst hk
      simp [checkKeysErrs, hmiss, lookupKey]
    · by_cases ht : subHasTruthyKey m k2
      · simp only [checkKeysErrs, ht, if_true]
        exact ih hmem2
      · simp only [checkKeysErrs, Bool.not_eq_true] at ht
        simp only [checkKeysErrs, ht, Bool.false_eq_true, if_false, lookupKey]
        by_cases hs : sanitizeKey k2 = sanitizeKey k
        · simp [hs]
        · simp only [beq_iff_eq, hs, if_false]
          exact ih hmem2

theorem checkKeysErrs_nil_of_all_truthy (m : SubModel)
    (l : List (String × Value)) (h : ∀ p ∈ l, subHasTruthyKey m p.1 = true) :
    checkKeysErrs m l = [] := by
  induction l with
  | nil => rfl
  | cons p rest ih =>
    obtain ⟨k2, v2⟩ := p
    have ht := h (k2, v2) (List.mem_cons_self _ _)
    simp only [checkKeysErrs, ht, if_true]
    exact ih fun q hq => h q (List.mem_cons_of_mem _ hq)

theorem checkKeysErrs_mem (m : SubModel) (l : List (String × Value)) :
    ∀ p ∈ checkKeysErrs m l,
      p.2 = .msgs ["invalidKey"] ∧
      ∃ k0 v0, (k0, v0) ∈ l ∧ p.1 = sanitizeKey k0 ∧
        subHasTruthyKey m k0 = false := by
  induction l with
  | nil => simp [checkKeysErrs]
  | cons q rest ih =>
    obtain ⟨k2, v2⟩ := q
    intro p hp
    by_cases ht : subHasTruthyKey m k2
    · simp only [checkKeysErrs, ht, if_true] at hp
      obtain ⟨h1, k0, v0, hm, h2, h3⟩ := ih p hp
      exact ⟨h1, k0, v0, List.mem_cons_of_mem _ hm, h2, h3⟩
    · simp only [Bool.not_eq_true] at ht
      simp only [checkKeysErrs, ht, Bool.false_eq_true, if_false,
        List.mem_cons] at hp
      rcases hp with heq | hp2
      · subst heq
        exact ⟨rfl, k2, v2, List.mem_cons_self _ _, rfl, ht⟩
      · obtain ⟨h1, k0, v0, hm, h2, h3⟩ := ih p hp2
        exact ⟨h1, k0, v0, List.mem_cons_of_mem _ hm, h2, h3⟩

theorem sanitizeKey_length_le (k : String) : (sanitizeKey k).length ≤ 48 := by
  unfold sanitizeKey
  split
  · have h3 : ("...".data).length = 3 := by decide
    simp only [String.length, String.mk]
    rw [List.length_append, List.length_take, h3]
    omega
  · omega

theorem sanitizeKey_of_long (k : String) (h : k.length > 48) :
    sanitizeKey k = String.mk (k.data.take 45 ++ "...".data) := by
  simp [sanitizeKey, h]

theorem checkKeys_valid_errors (m : SubModel) (d : Value)
    (h : (checkKeys m d).valid = true) :
    (checkKeys m d).errors = some (.node []) := by
  unfold checkKeys at h ⊢
  cases d <;> simp_all
  split at h
  · next he => simp [he]
  · simp at h

theorem checkKeys_invalid_errors (m : SubModel) (d : Value)
    (h : (checkKeys m d).valid = false) :
    nonemptyErrors (checkKeys m d).errors := by
  unfold checkKeys at h ⊢
  cases d <;> simp_all [nonemptyErrors]
  split at h
  · simp at h
  · next he =>
    simp only [he, Bool.false_eq_true, if_false, nonemptyErrors]
    simpa using he

theorem loopFields_inl (fields : List (String × FieldSpec))
    (dfields : List (String × Value)) (opts : VOpts) :
    ∀ (errs : List (String × ErrTree)) (r : ValidationResult),
      loopFields fields dfields opts errs = .ok (.inl r) →
      r.valid = false ∧ nonemptyErrors r.errors := by
  induction fields with
  | nil =>
    intro errs r h
    simp [loopFields] at h
  | cons p rest ih =>
    intro errs r h
    obtain ⟨key, scm⟩ := p
    simp only [loopFields] at h
    repeat' split at h
    case' cons.mk.isFalse.h_1.isFalse.isTrue =>
      simp only [Except.ok.injEq, Sum.inl.injEq] at h
      subst h
      refine ⟨by simp_all, checkKeys_invalid_errors _ _ (by simp_all)⟩
    all_goals first
      | exact ih _ _ h
      | simp at h

theorem loopFields_inr_extends (fields : List (String × FieldSpec))
    (dfields : List (String × Value)) (opts : VOpts) :
    ∀ (errs out : List (String × ErrTree)),
      loopFields fields dfields opts errs = .ok (.inr out) →
      ∃ extra, out = errs ++ extra ∧
        ∀ p ∈ extra, ∃ scm, (p.1, scm) ∈ fields ∧
          fieldSkipped scm ((lookupKey dfields p.1).getD .undef) = false := by
  induction fields with
  | nil =>
    intro errs out h
    simp only [loopFields, Except.ok.injEq, Sum.inr.injEq] at h
    subst h
    exact ⟨[], by simp, by simp⟩
  | cons p rest ih =>
    intro errs out h
    obtain ⟨key, scm⟩ := p
    simp only [loopFields] at h
    repeat' split at h
    all_goals first
      | simp at h
      | (obtain ⟨extra, ho, hp⟩ := ih _ _ h
         exact ⟨extra, ho, fun q hq => by
          obtain ⟨scm2, hm, hs⟩ := hp q hq
          exact ⟨scm2, List.mem_cons_of_mem _ hm, hs⟩⟩)
      | (obtain ⟨extra, ho, hp⟩ := ih _ _ h
         rw [List.append_assoc] at ho
         refine ⟨_, ho, ?_⟩
         intro q hq
         rcases List.mem_append.mp hq with h0 | hmem
         · rw [List.mem_singleton.mp h0]
           exact ⟨scm, List.mem_cons_self _ _, by simp_all⟩
         · obtain ⟨scm2, hm, hs⟩ := hp q hmem
           exact ⟨scm2, List.mem_cons_of_mem _ hm, hs⟩)

theorem mem_unique_of_nodup_keys {α : Type} :
    ∀ (l : List (String × α)), (keysOf l).Nodup →
      ∀ {k : String} {a b : α}, (k, a) ∈ l → (k, b) ∈ l → a = b := by
  intro l
  induction l with
  | nil => intro _ k a b ha; simp at ha
  | cons p rest ih =>
    intro hnd k a b ha hb
    obtain ⟨k2, v2⟩ := p
    simp only [keysOf, List.map_cons, List.nodup_cons] at hnd
    obtain ⟨hnotin, hnd2⟩ := hnd
    rcases List.mem_cons.mp ha with ha1 | ha2 <;>
      rcases List.mem_cons.mp hb with hb1 | hb2
    · obtain ⟨_, h1⟩ := Prod.mk.injEq .. ▸ ha1
      obtain ⟨_, h2⟩ := Prod.mk.injEq .. ▸ hb1
      exact h1.trans h2.symm
    · obtain ⟨hk, _⟩ := Prod.mk.injEq .. ▸ ha1
      exact absurd (hk ▸ List.mem_map_of_mem Prod.fst hb2) hnotin
    · obtain ⟨hk, _⟩ := Prod.mk.injEq .. ▸ hb1
      exact absurd (hk ▸ List.mem_map_of_mem Prod.fst ha2) hnotin
    · exact ih hnd2 ha2 hb2

theorem jsValidate_shape (d : Value) (m : SubModel) (opts : VOpts)
    (parent : Value) (r : ValidationResult)
    (h : jsValidate d m opts parent = .ok r) :
    (r.valid = true → r.errors = none) ∧
    (r.valid = false → nonemptyErrors r.errors) := by
  cases d <;> (rw [jsValidate] at h; repeat' split at h)
  all_goals first
    | (simp only [Except.ok.injEq] at h
       subst h
       refine ⟨fun hv => by simp_all [List.isEmpty_iff], fun hv => by
        simp_all [nonemptyErrors, List.isEmpty_iff, List.isEmpty_eq_false]⟩)
    | (simp only [Except.ok.injEq] at h
       subst h
       obtain ⟨hv, hne⟩ := loopFields_inl _ _ _ _ _ (by assumption)
       exact ⟨fun ht => by simp [ht] at hv, fun _ => hne⟩)
    | simp at h
    | simp

theorem sparseValidate_shape (d : Value) (m : SubModel) (opts : VOpts)
    (r : ValidationResult) (h : sparseValidate d m opts = .ok r) :
    (r.valid = true → r.errors = some (.node [])) ∧
    (r.valid = false → nonemptyErrors r.errors) := by
  cases d <;> (rw [sparseValidate] at h; repeat' split at h)
  all_goals first
    | (simp only [Except.ok.injEq] at h
       subst h
       refine ⟨fun hv => by simp_all [List.isEmpty_iff], fun hv => by
        simp_all [nonemptyErrors, List.isEmpty_iff, List.isEmpty_eq_false]⟩)
    | simp at h
    | simp

/-! Claim theorems. -/

/-- Claim C3, counterexample: with `sparse`, validating a fully valid record
yields `errors = {}` (an empty map), not `null` — refuting "errors is null
whenever the aggregate error map is empty" for every option set. -/
theorem c3_counterexample :
    validate
        (.keyed [("mega", .mk (some "string") false none [] none none none [] false)])
        (.obj [("mega", .str "kool")]) {sparse := true} =
      .ok ⟨true, some (.node [])⟩ ∧
    some (ErrTree.node []) ≠ (none : Option ErrTree) := by
  constructor
  · simp [validate, checkKeys, checkKeysErrs, subHasTruthyKey, lookupKey,
      jsValidate, loopFields, subFields, fieldSkipped, checkValue, setDefault,
      isEmptyVal, FieldSpec.required, FieldSpec.allowNull, FieldSpec.rules,
      FieldSpec.model, FieldSpec.type, FieldSpec.defaultVal, FieldSpec.errors,
      typeMatches, ruleErrors, isFalsy, isJsArray, isJsObject, jsStrictEq,
      emptyFieldSpec, sanitizeKey, elemLoop, asSpec, errTreeD, sparseValidate,
      sparseLoop, subGet]
  · simp

/-- Claim C3 (amended): whenever `validate` returns, `valid` is true exactly
when no field produced an error; but `errors` is normalized to `null` only on
the non-sparse, non-keyCheckOnly `_validate` path — the `keyCheckOnly` key
check and the `sparse` path return an empty error map `{}` on success instead
of `null`. -/
theorem c3_amended (model : SubModel) (data : Value) (opts : VOpts)
    (r : ValidationResult) (h : validate model data opts = .ok r) :
    (r.valid = true → (r.errors = none ∨ r.errors = some (.node []))) ∧
    (r.valid = false → nonemptyErrors r.errors) ∧
    (opts.sparse = false → opts.keyCheckOnly = false → r.valid = true →
      r.errors = none) := by
  rw [validate] at h
  split at h
  · next hc =>
    simp only [Except.ok.injEq] at h
    subst h
    exact ⟨fun hv => .inr (checkKeys_valid_errors _ _ hv),
      fun hv => checkKeys_invalid_errors _ _ hv,
      fun _ hk _ => absurd hc (by simp [hk])⟩
  · split at h
    · next hc =>
      simp only [Except.ok.injEq] at h
      subst h
      refine ⟨fun hv => .inr (checkKeys_valid_errors _ _ hv),
        fun hv => checkKeys_invalid_errors _ _ hv, fun _ _ hv => ?_⟩
      rw [Bool.and_eq_true] at hc
      simp [hv] at hc
    · split at h
      · next hc =>
        obtain ⟨h1, h2⟩ := sparseValidate_shape _ _ _ _ h
        exact ⟨fun hv => .inr (h1 hv), h2,
          fun hs _ _ => absurd hc (by simp [hs])⟩
      · obtain ⟨h1, h2⟩ := jsValidate_shape _ _ _ _ _ h
        exact ⟨fun hv => .inl (h1 hv), h2, fun _ _ hv => h1 hv⟩

/-- Claim C3, witness for the amended theorem at a concrete input. -/
theorem c3_amended_witness :
    validate (.keyed [("a", .mk (some "string") false none [] none none none [] false)])
        (.obj [("a", .str "hi")]) {} = .ok ⟨true, none⟩ ∧
    (ValidationResult.mk true none).errors = none := by
  have hval : validate
      (.keyed [("a", .mk (some "string") false none [] none none none [] false)])
      (.obj [("a", .str "hi")]) {} = .ok ⟨true, none⟩ := by
    simp [validate, checkKeys, checkKeysErrs, subHasTruthyKey, lookupKey,
      jsValidate, loopFields, subFields, fieldSkipped, checkValue, setDefault,
      isEmptyVal, FieldSpec.required, FieldSpec.allowNull, FieldSpec.rules,
      FieldSpec.model, FieldSpec.type, FieldSpec.defaultVal, FieldSpec.errors,
      typeMatches, ruleErrors, isFalsy, isJsArray, isJsObject, jsStrictEq,
      emptyFieldSpec, sanitizeKey, elemLoop, asSpec, errTreeD]
  exact ⟨hval, (c3_amended _ _ _ _ hval).2.2 rfl rfl rfl⟩

/-- Claim C10: a non-object subject under `strict` or `keyCheckOnly` returns
`{valid: false, errors: {data: ['invalidObject']}}`, independently of the
model (so no field rule is ever consulted). -/
theorem c10_invalid_object (model : SubModel) (data : Value) (opts : VOpts)
    (hobj : isJsObject data = false)
    (hopt : opts.strict = true ∨ opts.keyCheckOnly = true) :
    validate model data opts =
      .ok ⟨false, some (.node [("data", .msgs ["invalidObject"])])⟩ := by
  have hck : checkKeys model data =
      ⟨false, some (.node [("data", .msgs ["invalidObject"])])⟩ := by
    cases data <;> simp_all [checkKeys, isJsObject]
  rw [validate, hck]
  rcases hopt with hs | hk
  · by_cases hkco : opts.keyCheckOnly <;> simp [hkco, hs]
  · simp [hk]

/-- Claim C10, witness at a concrete scalar subject. -/
theorem c10_witness :
    validate (.keyed [("a", emptyFieldSpec)]) (.num 5) {strict := true} =
      .ok ⟨false, some (.node [("data", .msgs ["invalidObject"])])⟩ :=
  c10_invalid_object _ _ _ (by simp [isJsObject]) (.inl rfl)

/-- Claim C9: an unknown data key longer than 48 characters is recorded under
its first 45 characters followed by `...`, and never under the original key;
`keyCheckOnly` surfaces exactly this key-check result. -/
theorem c9_long_key_truncated (model : SubModel)
    (dfields : List (String × Value)) (k : String) (v : Value)
    (hmem : (k, v) ∈ dfields) (hmiss : subHasTruthyKey model k = false)
    (hlen : k.length > 48) :
    errorsLookup (checkKeys model (.obj dfields))
        (String.mk (k.data.take 45 ++ "...".data)) = some (.msgs ["invalidKey"]) ∧
    errorsLookup (checkKeys model (.obj dfields)) k = none ∧
    ∀ opts : VOpts, opts.keyCheckOnly = true →
      validate model (.obj dfields) opts = .ok (checkKeys model (.obj dfields)) := by
  have hlk := checkKeysErrs_lookup model dfields k v hmem hmiss
  have hne : checkKeysErrs model dfields ≠ [] := by
    intro h0
    rw [h0] at hlk
    simp [lookupKey] at hlk
  have hemp : (checkKeysErrs model dfields).isEmpty = false := by
    simp [List.isEmpty_eq_false, hne]
  have hck : checkKeys model (.obj dfields) =
      ⟨false, some (.node (checkKeysErrs model dfields))⟩ := by
    simp [checkKeys, hemp]
  refine ⟨?_, ?_, ?_⟩
  · rw [← sanitizeKey_of_long k hlen, hck]
    simpa [errorsLookup] using hlk
  · rw [hck]
    simp only [errorsLookup]
    rw [lookupKey_eq_none_iff]
    intro p hp hpk
    obtain ⟨_, k0, v0, _, hp1, _⟩ := checkKeysErrs_mem model dfields p hp
    have h1 : p.1.length ≤ 48 := hp1 ▸ sanitizeKey_length_le k0
    rw [hpk] at h1
    omega
  · intro opts hkco
    simp [validate, hkco]

/-- Claim C9, witness: a 49-character unknown key. -/
theorem c9_witness :
    errorsLookup
        (checkKeys (.keyed [("a", emptyFieldSpec)])
          (.obj [("bbbbbbbbbbbbbbbbbbbbbbbbbbbbbbbbbbbbbbbbbbbbbbbbb", .num 1)]))
        (String.mk
          (("bbbbbbbbbbbbbbbbbbbbbbbbbbbbbbbbbbbbbbbbbbbbbbbbb" : String).data.take 45 ++
            "...".data)) = some (.msgs ["invalidKey"]) ∧
    errorsLookup
        (checkKeys (.keyed [("a", emptyFieldSpec)])
          (.obj [("bbbbbbbbbbbbbbbbbbbbbbbbbbbbbbbbbbbbbbbbbbbbbbbbb", .num 1)]))
        "bbbbbbbbbbbbbbbbbbbbbbbbbbbbbbbbbbbbbbbbbbbbbbbbb" = none := by
  obtain ⟨h1, h2, _⟩ := c9_long_key_truncated (.keyed [("a", emptyFieldSpec)])
    [("bbbbbbbbbbbbbbbbbbbbbbbbbbbbbbbbbbbbbbbbbbbbbbbbb", .num 1)]
    "bbbbbbbbbbbbbbbbbbbbbbbbbbbbbbbbbbbbbbbbbbbbbbbbb" (.num 1)
    (by simp) (by simp [subHasTruthyKey, lookupKey]) (by decide)
  exact ⟨h1, h2⟩

/-- Claim C6: under `strict`, a data object with any key missing from the
model returns the key-check result immediately — `valid` is false and every
unknown key carries an `invalidKey` message under its (sanitized) name —
while a data object whose keys are all on the model validates exactly as the
same call without `strict`. -/
theorem c6_strict_key_rejection (model : SubModel)
    (dfields : List (String × Value)) (opts : VOpts)
    (hstrict : opts.strict = true) (hkco : opts.keyCheckOnly = false) :
    (∀ k v, (k, v) ∈ dfields → subHasTruthyKey model k = false →
      validate model (.obj dfields) opts = .ok (checkKeys model (.obj dfields)) ∧
      (checkKeys model (.obj dfields)).valid = false ∧
      errorsLookup (checkKeys model (.obj dfields)) (sanitizeKey k) =
        some (.msgs ["invalidKey"])) ∧
    ((∀ p ∈ dfields, subHasTruthyKey model p.1 = true) →
      validate model (.obj dfields) opts =
        (if opts.sparse then sparseValidate (.obj dfields) model opts
         else jsValidate (.obj dfields) model opts (.obj []))) := by
  constructor
  · intro k v hmem hmiss
    have hlk := checkKeysErrs_lookup model dfields k v hmem hmiss
    have hne : checkKeysErrs model dfields ≠ [] := by
      intro h0
      rw [h0] at hlk
      simp [lookupKey] at hlk
    have hemp : (checkKeysErrs model dfields).isEmpty = false := by
      simp [List.isEmpty_eq_false, hne]
    have hck : checkKeys model (.obj dfields) =
        ⟨false, some (.node (checkKeysErrs model dfields))⟩ := by
      simp [checkKeys, hemp]
    refine ⟨?_, by rw [hck], ?_⟩
    · rw [validate, hkco, hstrict, hck]
      simp
    · rw [hck]
      simpa [errorsLookup] using hlk
  · intro hall
    have hnil := checkKeysErrs_nil_of_all_truthy model dfields hall
    have hck : checkKeys model (.obj dfields) = ⟨true, some (.node [])⟩ := by
      simp [checkKeys, hnil]
    rw [validate, hck]
    simp [hkco, hstrict]

/-- Claim C6, witness: `{a: 'hi', z: 9}` against `{a: ...}` under `strict`,
and a fully declared record. -/
theorem c6_witness :
    (validate (.keyed [("a", .mk (some "string") false none [] none none none [] false)])
        (.obj [("a", .str "hi"), ("z", .num 9)]) {strict := true} =
      .ok (checkKeys (.keyed [("a", .mk (some "string") false none [] none none none [] false)])
        (.obj [("a", .str "hi"), ("z", .num 9)])) ∧
      (checkKeys (.keyed [("a", .mk (some "string") false none [] none none none [] false)])
        (.obj [("a", .str "hi"), ("z", .num 9)])).valid = false ∧
      errorsLookup (checkKeys (.keyed [("a", .mk (some "string") false none [] none none none [] false)])
        (.obj [("a", .str "hi"), ("z", .num 9)])) (sanitizeKey "z") =
        some (.msgs ["invalidKey"])) ∧
    validate (.keyed [("a", .mk (some "string") false none [] none none none [] false)])
        (.obj [("a", .str "hi")]) {strict := true} =
      (if ({strict := true} : VOpts).sparse then
        sparseValidate (.obj [("a", .str "hi")])
          (.keyed [("a", .mk (some "string") false none [] none none none [] false)])
          {strict := true}
       else jsValidate (.obj [("a", .str "hi")])
          (.keyed [("a", .mk (some "string") false none [] none none none [] false)])
          {strict := true} (.obj [])) := by
  constructor
  · exact (c6_strict_key_rejection _ _ _ rfl rfl).1 "z" (.num 9)
      (by simp) (by simp [subHasTruthyKey, lookupKey])
  · exact (c6_strict_key_rejection _ _ _ rfl rfl).2
      (by
        intro p hp
        rcases List.mem_cons.mp hp with h1 | h1
        · rw [h1]
          simp [subHasTruthyKey, lookupKey]
        · simp at h1)

/-- Claim C1, counterexample: a schema `{sub: {model: {x: ...}}, other:
{type: 'string'}}` against `{sub: {bad: 1}, other: 5}`.  The sub-object's
strict key-check failure does not short-circuit only `sub`'s sub-tree: the
whole validation returns the key-check result itself — the error sits under
`bad` (the extraneous key), not under `sub`, and `other` (whose value 5 fails
its string type) is never validated. -/
theorem c1_counterexample :
    validate
        (.keyed [("sub", .mk none false none [] none none
            (some (.keyed [("x", emptyFieldSpec)])) [] false),
          ("other", .mk (some "string") false none [] none none none [] false)])
        (.obj [("sub", .obj [("bad", .num 1)]), ("other", .num 5)]) {} =
      .ok ⟨false, some (.node [("bad", .msgs ["invalidKey"])])⟩ ∧
    lookupKey [("bad", ErrTree.msgs ["invalidKey"])] "sub" = none ∧
    lookupKey [("bad", ErrTree.msgs ["invalidKey"])] "other" = none := by
  refine ⟨?_, by simp [lookupKey], by simp [lookupKey]⟩
  simp [validate, checkKeys, checkKeysErrs, subHasTruthyKey, lookupKey,
    jsValidate, loopFields, subFields, fieldSkipped, checkValue, setDefault,
    isEmptyVal, FieldSpec.required, FieldSpec.allowNull, FieldSpec.rules,
    FieldSpec.model, FieldSpec.type, FieldSpec.defaultVal, FieldSpec.errors,
    typeMatches, ruleErrors, isFalsy, isJsArray, isJsObject, jsStrictEq,
    emptyFieldSpec, sanitizeKey, elemLoop, asSpec, errTreeD]
  decide

/-- Claim C1 (amended): when a non-skipped field with a single sub-object
sub-model fails the sub-model strict key-check, the `_validate` field loop
returns that key-check result itself immediately (source line 435
`return (errs[key] = checkedKeys)`): the remaining fields are not processed,
the accumulated errors are discarded, and the `invalidKey` errors are keyed
by the sub-object's extraneous keys rather than nested under the field's
key. -/
theorem c1_amended (key : String) (scm : FieldSpec) (sub : SubModel)
    (rest : List (String × FieldSpec)) (dfields : List (String × Value))
    (opts : VOpts) (errs : List (String × ErrTree))
    (hskip : fieldSkipped scm ((lookupKey dfields key).getD .undef) = false)
    (hmodel : scm.model = some sub)
    (harr : (scm.type == some "array" ||
        isJsArray ((lookupKey dfields key).getD .undef)) = false)
    (hck : (checkKeys sub ((lookupKey dfields key).getD .undef)).valid = false) :
    loopFields ((key, scm) :: rest) dfields opts errs =
      .ok (.inl (checkKeys sub ((lookupKey dfields key).getD .undef))) := by
  rw [loopFields]
  rw [if_neg (by simp [hskip])]
  split
  · next sub2 heq =>
    rw [hmodel] at heq
    injection heq with heq2
    subst heq2
    rw [if_neg (by simp [harr])]
    simp [hck]
  · next heq =>
    rw [hmodel] at heq
    simp at heq

/-- Claim C1, witness for the amended theorem at the counterexample's first
field, with arbitrary trailing fields and accumulated errors discarded. -/
theorem c1_amended_witness :
    loopFields
        [("sub", .mk none false none [] none none
            (some (.keyed [("x", emptyFieldSpec)])) [] false),
          ("other", .mk (some "string") false none [] none none none [] false)]
        [("sub", .obj [("bad", .num 1)]), ("other", .num 5)] {}
        [("stale", .msgs ["old"])] =
      .ok (.inl (checkKeys (.keyed [("x", emptyFieldSpec)])
        ((lookupKey [("sub", Value.obj [("bad", .num 1)]), ("other", .num 5)]
          "sub").getD .undef))) := by
  exact c1_amended "sub" _ _ _ _ _ _
    (by simp [fieldSkipped, lookupKey, FieldSpec.required, FieldSpec.allowNull,
      FieldSpec.rules, FieldSpec.defaultVal, setDefault, isEmptyVal])
    (by simp [FieldSpec.model])
    (by simp [FieldSpec.type, lookupKey, isJsArray])
    (by simp [checkKeys, checkKeysErrs, subHasTruthyKey, lookupKey,
      sanitizeKey, emptyFieldSpec])

/-- Claim C2, counterexample: the field `a` is required, declares
`type: 'array'` and a sub-model, and is absent from the data — yet `validate`
reports no error at all (`if (!v) continue` skips required array fields). -/
theorem c2_counterexample :
    validate
        (.keyed [("a", .mk (some "array") true none [] none none
          (some (.keyed [("x", emptyFieldSpec)])) [] false)])
        (.obj []) {} = .ok ⟨true, none⟩ := by
  simp [validate, checkKeys, checkKeysErrs, subHasTruthyKey, lookupKey,
    jsValidate, loopFields, subFields, fieldSkipped, checkValue, setDefault,
    isEmptyVal, FieldSpec.required, FieldSpec.allowNull, FieldSpec.rules,
    FieldSpec.model, FieldSpec.type, FieldSpec.defaultVal, FieldSpec.errors,
    typeMatches, ruleErrors, isFalsy, isJsArray, isJsObject, jsStrictEq,
    emptyFieldSpec, sanitizeKey, elemLoop, asSpec, errTreeD]

/-- Claim C2 (amended): a required field without a sub-model whose raw value
is empty (and not bypassed by `allowNull: true` with `null`) records a
`Required` error and validation continues; but a required field that declares
a sub-model with `type: 'array'` and whose value is absent is skipped without
any error. -/
theorem c2_amended :
    (∀ (key : String) (scm : FieldSpec) (rest : List (String × FieldSpec))
        (dfields : List (String × Value)) (opts : VOpts)
        (errs : List (String × ErrTree)),
      scm.model = none → scm.required = true →
      isEmptyVal ((lookupKey dfields key).getD .undef) = true →
      (scm.allowNull == some true &&
        jsStrictEq ((lookupKey dfields key).getD .undef) .null) = false →
      loopFields ((key, scm) :: rest) dfields opts errs =
        loopFields rest dfields opts (errs ++ [(key, .msgs ["Required"])])) ∧
    (∀ (key : String) (scm : FieldSpec) (sub : SubModel)
        (rest : List (String × FieldSpec)) (dfields : List (String × Value))
        (opts : VOpts) (errs : List (String × ErrTree)),
      scm.model = some sub → scm.type = some "array" →
      lookupKey dfields key = none →
      loopFields ((key, scm) :: rest) dfields opts errs =
        loopFields rest dfields opts errs) := by
  constructor
  · intro key scm rest dfields opts errs hmodel hreq hempty hbypass
    rw [loopFields]
    have hsk : fieldSkipped scm ((lookupKey dfields key).getD .undef) = false := by
      simp [fieldSkipped, hreq]
    rw [if_neg (by simp [hsk])]
    split
    · next sub2 heq =>
      rw [hmodel] at heq
      simp at heq
    · have hcv : checkValue ((lookupKey dfields key).getD .undef) (some scm)
          (.obj dfields) opts = ["Required"] := by
        simp [checkValue, hbypass, hempty, hreq]
      simp [hcv]
  · intro key scm sub rest dfields opts errs hmodel htype hlk
    rw [loopFields]
    by_cases hsk : fieldSkipped scm ((lookupKey dfields key).getD .undef) = true
    · rw [if_pos hsk]
    · rw [if_neg hsk]
      split
      · next sub2 heq =>
        rw [hmodel] at heq
        injection heq with heq2
        subst heq2
        rw [if_pos (by simp [htype]), if_pos (by simp [hlk, isFalsy])]
      · next heq =>
        rw [hmodel] at heq
        simp at heq

/-- Claim C2, witness: both amended parts at concrete inputs — a required
string field missing from the data records `Required`; a required array
sub-model field missing from the data is skipped. -/
theorem c2_amended_witness :
    loopFields [("a", .mk (some "string") true none [] none none none [] false)]
        [] {} [] =
      loopFields [] [] {} ([] ++ [("a", .msgs ["Required"])]) ∧
    loopFields [("a", .mk (some "array") true none [] none none
        (some (.keyed [("x", emptyFieldSpec)])) [] false)] [] {} [] =
      loopFields [] [] {} [] := by
  constructor
  · exact c2_amended.1 "a" _ [] [] {} []
      (by simp [FieldSpec.model]) (by simp [FieldSpec.required])
      (by simp [lookupKey, isEmptyVal])
      (by simp [FieldSpec.allowNull, lookupKey, jsStrictEq])
  · exact c2_amended.2 "a" _ (.keyed [("x", emptyFieldSpec)]) [] [] {} []
      (by simp [FieldSpec.model]) (by simp [FieldSpec.type])
      (by simp [lookupKey])

/-- Claim C5, counterexample: field `a` is optional (no `required`, no
`rules`, `allowNull` unset) and absent from the data, so the claim demands no
entry for `a` in the error tree; but the sibling field `b`'s sub-object
carries the extraneous key `a`, and the sub-model strict-check short-circuit
(source line 435) returns `{a: ['invalidKey']}` — an error-tree entry under
the field name `a`. -/
theorem c5_counterexample :
    validate
        (.keyed [("a", emptyFieldSpec),
          ("b", .mk none false none [] none none
            (some (.keyed [("x", emptyFieldSpec)])) [] false)])
        (.obj [("b", .obj [("a", .num 1)])]) {} =
      .ok ⟨false, some (.node [("a", .msgs ["invalidKey"])])⟩ ∧
    errorsLookup ⟨false, some (.node [("a", .msgs ["invalidKey"])])⟩ "a" =
      some (.msgs ["invalidKey"]) := by
  constructor
  · simp [validate, checkKeys, checkKeysErrs, subHasTruthyKey, lookupKey,
      jsValidate, loopFields, subFields, fieldSkipped, checkValue, setDefault,
      isEmptyVal, FieldSpec.required, FieldSpec.allowNull, FieldSpec.rules,
      FieldSpec.model, FieldSpec.type, FieldSpec.defaultVal, FieldSpec.errors,
      typeMatches, ruleErrors, isFalsy, isJsArray, isJsObject, jsStrictEq,
      emptyFieldSpec, sanitizeKey, elemLoop, asSpec, errTreeD]
    decide
  · simp [errorsLookup, lookupKey]

/-- Claim C5 (amended): an optional field (no `required`, `allowNull` not
`false`, no `rules`) whose value-after-default is empty contributes no entry
under its key, provided the field loop runs to completion (no sibling
sub-object strict-check short-circuit, which can surface an `invalidKey`
entry under the same name). -/
theorem c5_amended (fields : List (String × FieldSpec))
    (dfields : List (String × Value)) (opts : VOpts) (k : String)
    (scm : FieldSpec) (out : List (String × ErrTree)) (r : ValidationResult)
    (hnd : (keysOf fields).Nodup)
    (hmem : (k, scm) ∈ fields)
    (hreq : scm.required = false)
    (hnull : (scm.allowNull == some false) = false)
    (hrules : scm.rules = [])
    (hempty : isEmptyVal (setDefault ((lookupKey dfields k).getD .undef) scm) = true)
    (hloop : loopFields fields dfields opts [] = .ok (.inr out))
    (hr : jsValidate (.obj dfields) (.keyed fields) opts (.obj []) = .ok r) :
    lookupKey out k = none ∧ errorsLookup r k = none := by
  have hskip : fieldSkipped scm ((lookupKey dfields k).getD .undef) = true := by
    simp [fieldSkipped, hreq, hnull, hrules, hempty]
  obtain ⟨extra, hout, hprop⟩ :=
    loopFields_inr_extends fields dfields opts [] out hloop
  simp only [List.nil_append] at hout
  subst hout
  have hnok : lookupKey out k = none := by
    rw [lookupKey_eq_none_iff]
    intro p hp hpk
    obtain ⟨scm2, hm2, hs2⟩ := hprop p hp
    rw [hpk] at hm2 hs2
    have heq2 : scm2 = scm := mem_unique_of_nodup_keys fields hnd hm2 hmem
    rw [heq2, hskip] at hs2
    simp at hs2
  refine ⟨hnok, ?_⟩
  rw [jsValidate] at hr
  simp only [subFields, hloop] at hr
  split at hr <;>
    (simp only [Except.ok.injEq] at hr
     subst hr
     simp_all [errorsLookup, List.isEmpty_iff])

/-- Claim C5, witness: a single optional absent field; the loop completes
with an empty error map and no entry for the field. -/
theorem c5_amended_witness :
    lookupKey ([] : List (String × ErrTree)) "a" = none ∧
    errorsLookup ⟨true, none⟩ "a" = none := by
  exact c5_amended [("a", emptyFieldSpec)] [] {} "a" emptyFieldSpec []
    ⟨true, none⟩ (by simp [keysOf])
    (by simp)
    (by simp [emptyFieldSpec, FieldSpec.required])
    (by simp [emptyFieldSpec, FieldSpec.allowNull])
    (by simp [emptyFieldSpec, FieldSpec.rules])
    (by simp [lookupKey, setDefault, emptyFieldSpec, FieldSpec.defaultVal, isEmptyVal])
    (by simp [loopFields, fieldSkipped, lookupKey, setDefault, isEmptyVal,
      emptyFieldSpec, FieldSpec.required, FieldSpec.allowNull, FieldSpec.rules,
      FieldSpec.defaultVal])
    (by simp [jsValidate, subFields, loopFields, fieldSkipped, lookupKey,
      setDefault, isEmptyVal, emptyFieldSpec, FieldSpec.required,
      FieldSpec.allowNull, FieldSpec.rules, FieldSpec.defaultVal])

theorem elemLoop_cons (val : Value) (rest : List Value) (sub : SubModel)
    (opts : VOpts) (dfields : List (String × Value)) (idx : Nat)
    (acc : List (String × ErrTree)) :
    elemLoop (val :: rest) sub opts dfields idx acc =
      (match elemErrOf val sub opts dfields with
        | .error e => .error e
        | .ok none => elemLoop rest sub opts dfields (idx + 1) acc
        | .ok (some t) =>
            elemLoop rest sub opts dfields (idx + 1)
              (acc ++ [(toString idx, t)])) := by
  rw [elemLoop, elemErrOf]
  by_cases hobj : isJsObject val
  · rw [if_pos hobj, if_pos hobj]
    cases hjv : jsValidate val sub opts (.obj []) with
    | error e => rfl
    | ok arsub =>
      by_cases hv : arsub.valid
      · simp [hv]
      · simp [hv]
  · rw [if_neg hobj, if_neg hobj]
    by_cases he : (checkValue val (some (asSpec sub)) (.obj dfields) opts).isEmpty
    · simp [he]
    · simp [he]

theorem natToString_one : toString (1 : Nat) = "1" := rfl

theorem elemLoop_skip (val : Value) (rest : List Value) (sub : SubModel)
    (opts : VOpts) (dfields : List (String × Value)) (idx : Nat)
    (acc : List (String × ErrTree))
    (h : elemErrOf val sub opts dfields = .ok none) :
    elemLoop (val :: rest) sub opts dfields idx acc =
      elemLoop rest sub opts dfields (idx + 1) acc := by
  rw [elemLoop_cons, h]

theorem elemLoop_record (val : Value) (rest : List Value) (sub : SubModel)
    (opts : VOpts) (dfields : List (String × Value)) (idx : Nat)
    (acc : List (String × ErrTree)) (t : ErrTree)
    (h : elemErrOf val sub opts dfields = .ok (some t)) :
    elemLoop (val :: rest) sub opts dfields idx acc =
      elemLoop rest sub opts dfields (idx + 1)
        (acc ++ [(toString idx, t)]) := by
  rw [elemLoop_cons, h]

theorem jsValidate_age_pass :
    jsValidate (.obj [("age", .num 2)])
        (.keyed [("age", .mk (some "integer") false none [] none none none [] false)])
        {} (.obj []) = .ok ⟨true, none⟩ := by
  simp [jsValidate, subFields, loopFields, fieldSkipped, lookupKey, setDefault,
    isEmptyVal, FieldSpec.required, FieldSpec.allowNull, FieldSpec.rules,
    FieldSpec.model, FieldSpec.type, FieldSpec.defaultVal, checkValue,
    typeMatches, ruleErrors, jsStrictEq]

theorem jsValidate_age_fail :
    jsValidate (.obj [("age", .str "x")])
        (.keyed [("age", .mk (some "integer") false none [] none none none [] false)])
        {} (.obj []) =
      .ok ⟨false, some (.node [("age", .msgs ["Not of type integer"])])⟩ := by
  simp [jsValidate, subFields, loopFields, fieldSkipped, lookupKey, setDefault,
    isEmptyVal, FieldSpec.required, FieldSpec.allowNull, FieldSpec.rules,
    FieldSpec.model, FieldSpec.type, FieldSpec.defaultVal, checkValue,
    typeMatches, ruleErrors, jsStrictEq]

theorem elemErrOf_age_pass (dfields : List (String × Value)) :
    elemErrOf (.obj [("age", .num 2)])
        (.keyed [("age", .mk (some "integer") false none [] none none none [] false)])
        {} dfields = .ok none := by
  simp [elemErrOf, isJsObject, jsValidate_age_pass]

theorem elemErrOf_age_fail (dfields : List (String × Value)) :
    elemErrOf (.obj [("age", .str "x")])
        (.keyed [("age", .mk (some "integer") false none [] none none none [] false)])
        {} dfields = .ok (some (.node [("age", .msgs ["Not of type integer"])])) := by
  simp [elemErrOf, isJsObject, jsValidate_age_fail, errTreeD]

theorem elemLoop_gir (dfields : List (String × Value)) :
    elemLoop [.obj [("age", .num 2)], .obj [("age", .str "x")]]
        (.keyed [("age", .mk (some "integer") false none [] none none none [] false)])
        {} dfields 0 [] =
      .ok [("1", .node [("age", .msgs ["Not of type integer"])])] := by
  rw [elemLoop_skip _ _ _ _ _ _ _ (elemErrOf_age_pass dfields),
    elemLoop_record _ _ _ _ _ _ _ _ (elemErrOf_age_fail dfields)]
  simp [elemLoop, natToString_one]

theorem loopFields_gir :
    loopFields
        [("gir", .mk none false none [] none none
          (some (.keyed [("age",
            .mk (some "integer") false none [] none none none [] false)]))
          [] false)]
        [("gir", .arr [.obj [("age", .num 2)], .obj [("age", .str "x")]])]
        {} [] =
      .ok (.inr [("gir",
        .node [("1", .node [("age", .msgs ["Not of type integer"])])])]) := by
  simp [loopFields, fieldSkipped, lookupKey, setDefault, isEmptyVal,
    FieldSpec.required, FieldSpec.allowNull, FieldSpec.rules, FieldSpec.model,
    FieldSpec.type, FieldSpec.defaultVal, isJsArray, isFalsy, elemLoop_gir]

theorem validate_default (model : SubModel) (data : Value) :
    validate model data ⟨false, false, false⟩ =
      jsValidate data model ⟨false, false, false⟩ (.obj []) := by
  simp [validate]

theorem jsValidate_of_loopFields (dfields : List (String × Value))
    (model : SubModel) (opts : VOpts) (errs : List (String × ErrTree))
    (h : loopFields (subFields model) dfields opts [] = .ok (.inr errs))
    (hne : errs.isEmpty = false) :
    jsValidate (.obj dfields) model opts (.obj []) =
      .ok ⟨false, some (.node errs)⟩ := by
  simp [jsValidate, h, hne]

/-- Claim C7: in the array sub-model loop only failing elements are recorded,
keyed by their string index — a passing element adds nothing and a failing
element appends its error tree under `toString idx`.  With default options
`validate` runs the `_validate` engine, which wraps a non-empty field-loop
error map as its error tree; on `{gir: {model: {age: {type: 'integer'}}}}`
against `{gir: [{age: 2}, {age: 'x'}]}` the field loop yields exactly
`{gir: {'1': {age: ['Not of type integer']}}}`, and that `gir` error map
holds key `'1'` (with an error on `age`) and no key `'0'`. -/
theorem c7_array_index_errors :
    (∀ (sub : SubModel) (opts : VOpts) (dfields : List (String × Value))
        (val : Value) (rest : List Value) (idx : Nat)
        (acc : List (String × ErrTree)),
      (elemErrOf val sub opts dfields = .ok none →
        elemLoop (val :: rest) sub opts dfields idx acc =
          elemLoop rest sub opts dfields (idx + 1) acc) ∧
      (∀ t, elemErrOf val sub opts dfields = .ok (some t) →
        elemLoop (val :: rest) sub opts dfields idx acc =
          elemLoop rest sub opts dfields (idx + 1)
            (acc ++ [(toString idx, t)]))) ∧
    (∀ (model : SubModel) (data : Value),
      validate model data {} = jsValidate data model {} (.obj [])) ∧
    (∀ (dfields : List (String × Value)) (model : SubModel) (opts : VOpts)
        (errs : List (String × ErrTree)),
      loopFields (subFields model) dfields opts [] = .ok (.inr errs) →
      errs.isEmpty = false →
      jsValidate (.obj dfields) model opts (.obj []) =
        .ok ⟨false, some (.node errs)⟩) ∧
    loopFields
        (subFields (.keyed [("gir", .mk none false none [] none none
          (some (.keyed [("age",
            .mk (some "integer") false none [] none none none [] false)]))
          [] false)]))
        [("gir", .arr [.obj [("age", .num 2)], .obj [("age", .str "x")]])]
        {} [] =
      .ok (.inr [("gir",
        .node [("1", .node [("age", .msgs ["Not of type integer"])])])]) ∧
    lookupKey [("1", ErrTree.node [("age", .msgs ["Not of type integer"])])]
      "1" = some (.node [("age", .msgs ["Not of type integer"])]) ∧
    lookupKey [("1", ErrTree.node [("age", .msgs ["Not of type integer"])])]
      "0" = none := by
  refine ⟨?_, validate_default, jsValidate_of_loopFields,
    by simpa [subFields] using loopFields_gir,
    by simp [lookupKey], by simp [lookupKey]⟩
  intro sub opts dfields val rest idx acc
  exact ⟨fun he => elemLoop_skip val rest sub opts dfields idx acc he,
    fun t he => elemLoop_record val rest sub opts dfields idx acc t he⟩

/-- Claim C7, witness: a passing element (`{age: 2}`) is skipped by the
element loop — no index key is recorded for it. -/
theorem c7_witness :
    elemLoop [Value.obj [("age", .num 2)]]
        (.keyed [("age", .mk (some "integer") false none [] none none none [] false)])
        {} [] 0 [] =
      elemLoop []
        (.keyed [("age", .mk (some "integer") false none [] none none none [] false)])
        {} [] 1 [] := by
  exact (c7_array_index_errors.1 _ {} [] (.obj [("age", .num 2)]) [] 0 []).1
    (by simp [elemErrOf, isJsObject, jsValidate, subFields, loopFields,
      fieldSkipped, lookupKey, checkValue, setDefault, isEmptyVal,
      FieldSpec.required, FieldSpec.allowNull, FieldSpec.rules,
      FieldSpec.model, FieldSpec.type, FieldSpec.defaultVal, typeMatches,
      ruleErrors, errTreeD])

/-- Claim C8: a transform name absent from the registry is silently skipped —
that pipeline step is the identity and raises no error — while a registered
name's function is applied at its step, feeding the next, in list order. -/
theorem c8_unknown_transforms_skipped :
    (∀ (reg : TransformReg) (val : Value) (key : String) (rest : List String),
      lookupKey reg key = none →
      applyTransformList reg val (key :: rest) =
        applyTransformList reg val rest ∧
      transform reg val (key :: rest) = transform reg val rest) ∧
    (∀ (reg : TransformReg) (val : Value) (key : String) (rest : List String)
        (f : TransformFn),
      lookupKey reg key = some f →
      applyTransformList reg val (key :: rest) =
        (match f val with
          | .error e => .error e
          | .ok v2 => applyTransformList reg v2 rest)) := by
  constructor
  · intro reg val key rest hmiss
    have h1 : applyTransformList reg val (key :: rest) =
        applyTransformList reg val rest := by
      rw [applyTransformList, hmiss]
    refine ⟨h1, ?_⟩
    rw [transform, transform]
    by_cases hu : jsStrictEq val .undef = true
    · rw [if_pos hu, if_pos hu]
    · rw [if_neg hu, if_neg hu, h1]
  · intro reg val key rest f hsome
    rw [applyTransformList, hsome]

/-- Claim C8, witness: the unregistered name `nope` is skipped and the
registered `uppercase` still applies. -/
theorem c8_witness :
    applyTransformList builtinTransforms (.str "a b") ("nope" :: ["uppercase"]) =
      applyTransformList builtinTransforms (.str "a b") ["uppercase"] ∧
    transform builtinTransforms (.str "a b") ("nope" :: ["uppercase"]) =
      transform builtinTransforms (.str "a b") ["uppercase"] :=
  c8_unknown_transforms_skipped.1 builtinTransforms (.str "a b") "nope"
    ["uppercase"] (by rfl)

/-- Claim C4: `format` (modelled from the spec: the format engine is not
under `src/`) returns a freshly built record and hands back the caller's
input data unchanged — the `strip` step (embedded from `src/src/strip.js`,
destructive in JS on its own argument) is applied to the new record, and it
deletes exactly the keys whose value strictly equals a sentinel. -/
theorem c4_format_no_input_mutation (reg : TransformReg)
    (fields : List (String × FieldSpec)) (data : Value) (opts : FOpts)
    (res : Value × Value) (h : format reg fields data opts = .ok res) :
    res.2 = data ∧
    (∀ (values : Value) (dfs : List (String × Value)) (k : String) (v : Value),
      (k, v) ∈ stripFields (sentinelValues values) dfs ↔
        (k, v) ∈ dfs ∧
          (sentinelValues values).any (fun s => jsStrictEq v s) = false) := by
  constructor
  · cases data <;> rw [format] at h <;> repeat' split at h
    all_goals first
      | (rw [← h])
      | (simp only [Except.ok.injEq] at h
         subst h
         rfl)
      | simp at h
      | simp
  · intro values dfs k v
    induction dfs with
    | nil => simp [stripFields]
    | cons p rest ih =>
      obtain ⟨k2, v2⟩ := p
      by_cases hs : (sentinelValues values).any (fun s => jsStrictEq v2 s) = true
      · simp only [stripFields, hs, if_true]
        rw [ih]
        constructor
        · rintro ⟨hm, hna⟩
          exact ⟨List.mem_cons_of_mem _ hm, hna⟩
        · rintro ⟨hm, hna⟩
          rcases List.mem_cons.mp hm with heq | hm2
          · obtain ⟨_, hv2⟩ := Prod.mk.injEq .. ▸ heq
            rw [← hv2] at hs
            rw [hs] at hna
            simp at hna
          · exact ⟨hm2, hna⟩
      · simp only [stripFields, hs, Bool.false_eq_true, if_false]
        constructor
        · intro hm
          rcases List.mem_cons.mp hm with heq | hm2
          · obtain ⟨_, hv2⟩ := Prod.mk.injEq .. ▸ heq
            refine ⟨by rw [heq]; exact List.mem_cons_self _ _, ?_⟩
            rw [hv2]
            simpa using hs
          · obtain ⟨hm3, hna⟩ := ih.mp hm2
            exact ⟨List.mem_cons_of_mem _ hm3, hna⟩
        · rintro ⟨hm, hna⟩
          rcases List.mem_cons.mp hm with heq | hm2
          · rw [heq]
            exact List.mem_cons_self _ _
          · exact List.mem_cons_of_mem _ (ih.mpr ⟨hm2, hna⟩)

/-- Claim C4, witness: formatting `{a: undefined, b: 2}` with
`strip: undefined` drops `a` from the new record while the caller's data is
returned unchanged. -/
theorem c4_witness :
    format builtinTransforms [("a", emptyFieldSpec), ("b", emptyFieldSpec)]
        (.obj [("a", .undef), ("b", .num 2)]) {strip := some .undef} =
      .ok (.obj [("b", .num 2)], .obj [("a", .undef), ("b", .num 2)]) ∧
    (Value.obj [("b", .num 2)], Value.obj [("a", .undef), ("b", .num 2)]).2 =
      .obj [("a", .undef), ("b", .num 2)] := by
  have hf : format builtinTransforms [("a", emptyFieldSpec), ("b", emptyFieldSpec)]
      (.obj [("a", .undef), ("b", .num 2)]) {strip := some .undef} =
      .ok (.obj [("b", .num 2)], .obj [("a", .undef), ("b", .num 2)]) := by
    simp [format, formatFields, lookupKey, setDefault, isEmptyVal,
      emptyFieldSpec, FieldSpec.defaultVal, FieldSpec.transforms,
      FieldSpec.protect, transform, applyTransformList, jsStrictEq, strip,
      sentinelValues, stripFields]
  exact ⟨hf, (c4_format_no_input_mutation _ _ _ _ _ hf).1⟩

end SchemaJs
